import Mathlib

/-!
Shallow embedding of the rtshark streaming PDML decoder (`src/lib.rs`):
the `Packet`/`Layer`/`Metadata` data model, the per-field metadata builder
`rtshark_build_metadata`, the geninfo timestamp handling, the `parse_xml`
tag-event state machine, and the `RTShark::read` end-of-stream
disambiguation logic, together with theorems settling the specification
claims about them.

XML events are modelled after `quick_xml`'s interface: `start`/`empty`/
`close` tag events, `eof`, other ignored events, and reader errors; tag
attributes are association lists of decoded strings.
-/

namespace RTSharkSpec

/-- One decoded XML attribute: key and value. -/
structure Attr where
  key : String
  value : String
deriving DecidableEq, Repr

/-- An XML tag with its name and attribute list (in document order). -/
structure Tag where
  name : String
  attrs : List Attr
deriving DecidableEq, Repr

/-- The events delivered by the XML reader, as consumed by `parse_xml`. -/
inductive XmlEvent where
  | start (tag : Tag)
  | empty (tag : Tag)
  | close (name : String)
  | eof
  | text
  | readErr (msg : String)
deriving DecidableEq, Repr

/-- The `std::io::ErrorKind` values the decoder uses, plus a marker for a
Rust panic (the `unwrap` in the `Event::Empty` field branch). -/
inductive ErrKind where
  | invalidInput
  | invalidData
  | panicked
deriving DecidableEq, Repr

/-- A decoder error: kind and message, mirroring `std::io::Error`. -/
structure RErr where
  kind : ErrKind
  msg : String
deriving DecidableEq, Repr

/-- `Metadata` from `src/lib.rs`: one named field value of a layer. -/
structure Metadata where
  name : String
  value : String
  raw_value : Option String
  display : Option String
  size : Option Nat
  position : Option Nat
deriving DecidableEq, Repr

/-- `Metadata::new`: `raw_value` starts out unset. -/
def Metadata.new (name value : String) (display : Option String)
    (size position : Option Nat) : Metadata :=
  ⟨name, value, none, display, size, position⟩

/-- `Metadata::raw_value()`: the stored raw value, falling back to `value`. -/
def Metadata.rawValue (m : Metadata) : String :=
  m.raw_value.getD m.value

/-- `Layer` from `src/lib.rs`: one protocol occurrence in a packet. -/
structure Layer where
  name : String
  index : Nat
  metadata : List Metadata
deriving DecidableEq, Repr

/-- `Layer::new`. -/
def Layer.new (name : String) (index : Nat) : Layer :=
  ⟨name, index, []⟩

/-- `Layer::add`: append a metadata. -/
def Layer.add (l : Layer) (m : Metadata) : Layer :=
  { l with metadata := l.metadata ++ [m] }

/-- `Layer::metadata`: first metadata with the given name. -/
def Layer.metadata_by_name (l : Layer) (name : String) : Option Metadata :=
  l.metadata.find? (fun m => m.name == name)

/-- `Packet` from `src/lib.rs`: the layer stack plus optional timestamp. -/
structure Packet where
  layers : List Layer
  timestamp_micros : Option Int
deriving DecidableEq, Repr

/-- `Packet::new` (the `Default` instance). -/
def Packet.new : Packet :=
  ⟨[], none⟩

/-- `Packet::push`: append a layer whose index is the current stack size. -/
def Packet.push (p : Packet) (name : String) : Packet :=
  { p with layers := p.layers ++ [Layer.new name p.layers.length] }

/-- `Packet::last_layer_mut` as a read: the last layer, if any. -/
def Packet.last_layer (p : Packet) : Option Layer :=
  p.layers.getLast?

/-- `Packet::push_if_not_exist`: push unless the last layer has this name. -/
def Packet.push_if_not_exist (p : Packet) (name : String) : Packet :=
  match p.layers.getLast? with
  | some l => if l.name = name then p else p.push name
  | none => p.push name

/-- In-place mutation of the last list element (models writing through
`last_layer_mut`). -/
def updateLastAux (f : Layer → Layer) : List Layer → List Layer
  | [] => []
  | [l] => [f l]
  | l :: l2 :: ls => l :: updateLastAux f (l2 :: ls)

/-- Apply `f` to the last layer of the packet (if any). -/
def Packet.update_last (p : Packet) (f : Layer → Layer) : Packet :=
  { p with layers := updateLastAux f p.layers }

/-- `Packet::layer_name`: first layer with the given name. -/
def Packet.layer_name (p : Packet) (name : String) : Option Layer :=
  p.layers.find? (fun l => l.name == name)

/-- `Packet::layer_index`. -/
def Packet.layer_index (p : Packet) (i : Nat) : Option Layer :=
  p.layers.get? i

/-- `Packet::layer_count`. -/
def Packet.layer_count (p : Packet) : Nat :=
  p.layers.length

/-- Character-list version of string prefix testing. -/
def starts_with_aux : List Char → List Char → Bool
  | _, [] => true
  | [], _ :: _ => false
  | c :: cs, p :: ps => (c == p) && starts_with_aux cs ps

/-- Rust `str::starts_with` (kernel-computable form of `startsWith`). -/
def str_starts_with (s p : String) : Bool :=
  starts_with_aux s.data p.data

/-- First attribute value for a key, in document order. -/
def attr? (tag : Tag) (key : String) : Option String :=
  (tag.attrs.find? (fun a => a.key == key)).map Attr.value

/-- `rtshark_attr_by_name`: attribute lookup; a missing key is an
`InvalidInput` error (the kind the value-selection fallback tests for). -/
def rtshark_attr_by_name (tag : Tag) (key : String) : Except RErr String :=
  match attr? tag key with
  | some v => Except.ok v
  | none =>
      Except.error ⟨ErrKind.invalidInput, "xml lookup error: no key " ++ key⟩

/-- Digits-only string to number (used by the integer parsers). -/
def digitsToNat? (cs : List Char) : Option Nat :=
  if cs = [] then none
  else if cs.all Char.isDigit then
    some (cs.foldl (fun n c => n * 10 + (c.toNat - 48)) 0)
  else none

/-- Rust `str::parse::<u32>`: optional leading plus sign, digits only,
result below `2^32`. -/
def parse_u32 (s : String) : Option Nat :=
  let cs := match s.data with
    | '+' :: rest => rest
    | cs => cs
  match digitsToNat? cs with
  | some n => if n < 4294967296 then some n else none
  | none => none

/-- Rust `str::parse::<i64>`: optional sign, digits only, result within
the signed 64-bit range. -/
def parse_i64 (s : String) : Option Int :=
  let signed : Bool × List Char := match s.data with
    | '-' :: rest => (true, rest)
    | '+' :: rest => (false, rest)
    | cs => (false, cs)
  match digitsToNat? signed.2 with
  | some n =>
      let v : Int := if signed.1 then -(n : Int) else (n : Int)
      if -9223372036854775808 ≤ v ∧ v ≤ 9223372036854775807 then some v
      else none
  | none => none

/-- `rtshark_attr_by_name_u32`: attribute lookup then `u32` parse; a
malformed number is an `InvalidData` error. -/
def rtshark_attr_by_name_u32 (tag : Tag) (key : String) : Except RErr Nat :=
  match rtshark_attr_by_name tag key with
  | Except.error e => Except.error e
  | Except.ok v =>
      match parse_u32 v with
      | some n => Except.ok n
      | none => Except.error ⟨ErrKind.invalidData, "Error decoding u32 value"⟩

/-- The pyshark-like value selection of `rtshark_build_metadata`:
`show`, else the `value` attribute, else `showname`; the fallback only
fires on an `InvalidInput` (missing-key) error. -/
def select_value (tag : Tag) : Except RErr String :=
  match rtshark_attr_by_name tag "show" with
  | Except.ok v => Except.ok v
  | Except.error err =>
      if err.kind = ErrKind.invalidInput then
        match rtshark_attr_by_name tag "value" with
        | Except.ok v => Except.ok v
        | Except.error err2 =>
            if err2.kind = ErrKind.invalidInput then
              match rtshark_attr_by_name tag "showname" with
              | Except.ok v => Except.ok v
              | Except.error _ => Except.error err2
            else Except.error err2
      else Except.error err

/-- The `pos` attribute block of `rtshark_build_metadata`. -/
def with_pos (tag : Tag) (m : Metadata) : Metadata :=
  match rtshark_attr_by_name_u32 tag "pos" with
  | Except.ok position => { m with position := some position }
  | Except.error _ => m

/-- The `size` attribute block of `rtshark_build_metadata`. -/
def with_size (tag : Tag) (m : Metadata) : Metadata :=
  match rtshark_attr_by_name_u32 tag "size" with
  | Except.ok size => { m with size := some size }
  | Except.error _ => m

/-- The `showname` attribute block of `rtshark_build_metadata`. -/
def with_display (tag : Tag) (m : Metadata) : Metadata :=
  match rtshark_attr_by_name tag "showname" with
  | Except.ok display => { m with display := some display }
  | Except.error _ => m

/-- The `value` attribute block of `rtshark_build_metadata`: store the raw
value only when it differs from the selected display value. -/
def with_raw (tag : Tag) (m : Metadata) : Metadata :=
  match rtshark_attr_by_name tag "value" with
  | Except.ok raw_value =>
      if raw_value ≠ m.value then { m with raw_value := some raw_value } else m
  | Except.error _ => m

/-- The optional-attribute passes applied after value selection. -/
def finalize_metadata (tag : Tag) (name value : String) : Metadata :=
  with_raw tag (with_display tag (with_size tag (with_pos tag
    (Metadata.new name value none none none))))

/-- `rtshark_build_metadata`: build the metadata for one `field` tag, or
`none` when the field is skipped, or an error when the name attribute is
missing or no readable value exists. -/
def rtshark_build_metadata (tag : Tag) (filters : List String) :
    Except RErr (Option Metadata) :=
  match rtshark_attr_by_name tag "name" with
  | Except.error e => Except.error e
  | Except.ok name =>
      if (name == "") || str_starts_with name "_ws." then Except.ok none
      else if filters.contains name then Except.ok none
      else
        match select_value tag with
        | Except.error e => Except.error e
        | Except.ok value => Except.ok (some (finalize_metadata tag name value))

/-- Rust `str::split_once`: split at the first occurrence of `c`. -/
def split_once_aux (c : Char) (acc : List Char) :
    List Char → Option (List Char × List Char)
  | [] => none
  | x :: xs =>
      if x = c then some (acc.reverse, xs) else split_once_aux c (x :: acc) xs

/-- Rust `str::split_once` on strings. -/
def split_once (s : String) (c : Char) : Option (String × String) :=
  (split_once_aux c [] s.data).map (fun p => (⟨p.1⟩, ⟨p.2⟩))

/-- Rust `name.split('.').next()`: the protocol name prefix of a dotted
field name (the whole name when it has no dot; `split` always yields a
first item, so the Rust `next()` is always `Some`). -/
def proto_of_field_name (name : String) : String :=
  match split_once name '.' with
  | some (a, _) => a
  | none => name

/-- Modelled from the spec: validity of a `(seconds, nanoseconds)` pair as
a UTC instant, standing in for the external chrono library's
`Utc.timestamp_opt` (the crate source only calls it; §4.1.2 requires "the
combination must form a valid UTC instant"). The nanosecond part must stay
below the leap-second allowance and the seconds must fit the library's
representable range of about ±262000 years. -/
def timestamp_opt_is_single (secs : Int) (nsecs : Nat) : Bool :=
  decide (nsecs < 2000000000) &&
    decide (-8334601228800 ≤ secs) && decide (secs ≤ 8210266876799)

/-- Modelled from the spec: chrono's `DateTime::timestamp_micros` for an
instant built from whole seconds and a nanosecond part — microseconds
since epoch (§4.1.2: "Output: microseconds since epoch"). -/
def timestamp_micros_of (secs : Int) (nsecs : Nat) : Int :=
  secs * 1000000 + (nsecs / 1000 : Nat)

/-- The timestamp-decoding chain of `geninfo_metadata`: split at the
first dot, parse signed seconds and unsigned nanoseconds, check the UTC
instant, and produce microseconds since epoch; `none` on any failure
(each failure maps to the same `bad_timestamp` error below). -/
def decode_timestamp (value : String) : Option Int :=
  match split_once value '.' with
  | none => none
  | some (s, n) =>
      match parse_i64 s with
      | none => none
      | some secs =>
          match parse_u32 n with
          | none => none
          | some nsecs =>
              if timestamp_opt_is_single secs nsecs then
                some (timestamp_micros_of secs nsecs)
              else none

/-- `geninfo_metadata`: inside the `geninfo` bookkeeping protocol, a
`timestamp` field sets the packet timestamp; other fields are ignored;
any timestamp parse failure is a hard `InvalidData` error. -/
def geninfo_metadata (tag : Tag) (packet : Packet) : Except RErr Packet :=
  match rtshark_attr_by_name tag "name" with
  | Except.error e => Except.error e
  | Except.ok name =>
      if name ≠ "timestamp" then Except.ok packet
      else
        match rtshark_attr_by_name tag "value" with
        | Except.error e => Except.error e
        | Except.ok value =>
            match decode_timestamp value with
            | some micros =>
                Except.ok { packet with timestamp_micros := some micros }
            | none =>
                Except.error
                  ⟨ErrKind.invalidData, "Error decoding timestamp: " ++ value⟩

/-- `ignored_protocols`: the two analyzer-internal bookkeeping names. -/
def ignored_protocols (name : String) : Bool :=
  name == "geninfo" || name == "fake-field-wrapper"

/-- `parse_xml::_add_metadata`: create a layer from the field's protocol
name prefix if the last layer is not already that protocol, then attach. -/
def _add_metadata (packet : Packet) (metadata : Metadata) :
    Except RErr Packet :=
  let packet := packet.push_if_not_exist (proto_of_field_name metadata.name)
  match packet.layers.getLast? with
  | some _ => Except.ok (packet.update_last (fun l => l.add metadata))
  | none =>
      Except.error
        ⟨ErrKind.invalidData, "Cannot find protocol name to push a metadata"⟩

/-- The per-invocation decoder state of `parse_xml`: the packet being
accumulated and the current protocol context. -/
structure DState where
  packet : Packet
  protoname : Option String
deriving DecidableEq, Repr

/-- The fresh state at the start of each `parse_xml` invocation. -/
def dInit : DState :=
  ⟨Packet.new, none⟩

/-- Outcome of handling one XML event inside the `parse_xml` loop. -/
inductive StepRes where
  | cont (s : DState)
  | emit (p : Packet)
  | stop
deriving Repr

/-- The `Event::Start` arm of the `parse_xml` loop. -/
def handle_start (filters : List String) (s : DState) (tag : Tag) :
    Except RErr StepRes :=
  if tag.name == "proto" then
    match rtshark_attr_by_name tag "name" with
    | Except.error e => Except.error e
    | Except.ok proto =>
        Except.ok (StepRes.cont
          ⟨if ignored_protocols proto then s.packet else s.packet.push proto,
            some proto⟩)
  else if tag.name == "field" then
    match rtshark_build_metadata tag filters with
    | Except.error e => Except.error e
    | Except.ok none => Except.ok (StepRes.cont s)
    | Except.ok (some m) =>
        match _add_metadata s.packet m with
        | Except.error e => Except.error e
        | Except.ok p => Except.ok (StepRes.cont ⟨p, s.protoname⟩)
  else Except.ok (StepRes.cont s)

/-- The `Event::Empty` arm of the `parse_xml` loop. -/
def handle_empty (filters : List String) (s : DState) (tag : Tag) :
    Except RErr StepRes :=
  if tag.name == "field" then
    match s.protoname with
    | some name =>
        if name == "geninfo" then
          match geninfo_metadata tag s.packet with
          | Except.error e => Except.error e
          | Except.ok p => Except.ok (StepRes.cont ⟨p, s.protoname⟩)
        else
          match rtshark_build_metadata tag filters with
          | Except.error e => Except.error e
          | Except.ok none => Except.ok (StepRes.cont s)
          | Except.ok (some m) =>
              if name == "fake-field-wrapper" then
                match s.packet.layers.getLast? with
                | some l =>
                    if l.name == proto_of_field_name m.name then
                      Except.ok (StepRes.cont
                        ⟨s.packet.update_last (fun l2 => l2.add m),
                          s.protoname⟩)
                    else Except.ok (StepRes.cont s)
                | none => Except.ok (StepRes.cont s)
              else
                match s.packet.layers.getLast? with
                | some _ =>
                    Except.ok (StepRes.cont
                      ⟨s.packet.update_last (fun l2 => l2.add m),
                        s.protoname⟩)
                | none =>
                    Except.error
                      ⟨ErrKind.panicked,
                        "called Option::unwrap on a None value"⟩
    | none =>
        match rtshark_build_metadata tag filters with
        | Except.error e => Except.error e
        | Except.ok none => Except.ok (StepRes.cont s)
        | Except.ok (some m) =>
            match _add_metadata s.packet m with
            | Except.error e => Except.error e
            | Except.ok p => Except.ok (StepRes.cont ⟨p, s.protoname⟩)
  else Except.ok (StepRes.cont s)

/-- The `Event::End` arm of the `parse_xml` loop. -/
def handle_close (s : DState) (name : String) : Except RErr StepRes :=
  if name == "packet" then Except.ok (StepRes.emit s.packet)
  else if name == "proto" then
    Except.ok (StepRes.cont ⟨s.packet, none⟩)
  else Except.ok (StepRes.cont s)

/-- One iteration of the `parse_xml` event loop. -/
def parse_step (filters : List String) (s : DState) (ev : XmlEvent) :
    Except RErr StepRes :=
  match ev with
  | XmlEvent.start tag => handle_start filters s tag
  | XmlEvent.empty tag => handle_empty filters s tag
  | XmlEvent.close name => handle_close s name
  | XmlEvent.eof => Except.ok StepRes.stop
  | XmlEvent.text => Except.ok (StepRes.cont s)
  | XmlEvent.readErr msg =>
      Except.error ⟨ErrKind.invalidData, "xml parsing error: " ++ msg⟩

/-- `parse_xml`: run the event loop on the remaining event stream; yield
the completed packet (and the unconsumed rest of the stream) at a packet
close tag, or `none` at end of input. An exhausted stream behaves like an
`Eof` event, as `quick_xml` reports `Eof` forever at end of input. -/
def parse_xml (filters : List String) (s : DState) :
    List XmlEvent → Except RErr (Option Packet × List XmlEvent)
  | [] => Except.ok (none, [])
  | ev :: rest =>
      match parse_step filters s ev with
      | Except.error e => Except.error e
      | Except.ok (StepRes.cont s') => parse_xml filters s' rest
      | Except.ok (StepRes.emit p) => Except.ok (some p, rest)
      | Except.ok StepRes.stop => Except.ok (none, rest)

/-- Run a prefix of the stream that stays inside one packet: every event
must step with `cont`. -/
def runCont (filters : List String) : DState → List XmlEvent → Option DState
  | s, [] => some s
  | s, ev :: rest =>
      match parse_step filters s ev with
      | Except.ok (StepRes.cont s') => runCont filters s' rest
      | _ => none

/-- A complete, well-formed packet tag for the decoder: a body of events
that all step normally from the fresh state, closed by `</packet>`, and
decoding to the packet `p`. -/
def CompletePacketTag (filters : List String) (evs : List XmlEvent)
    (p : Packet) : Prop :=
  ∃ body s, evs = body ++ [XmlEvent.close "packet"] ∧
    runCont filters dInit body = some s ∧ s.packet = p

/-- One `Child::try_wait` outcome, as inspected by `try_wait_has_exited`:
an exit status (with optional exit code and, on unix, optional signal), a
still-running process, or a wait error. -/
inductive TryWaitRes where
  | exited (code : Option Int) (signal : Option Int)
  | running
  | waitErr

/-- The retry loop of `RTShark::try_wait_has_exited`: `count` attempts
left, polling attempt `i` next. -/
def try_wait_loop (poll : Nat → TryWaitRes) : Nat → Nat → Bool
  | 0, _ => false
  | count + 1, i =>
      match poll i with
      | TryWaitRes.exited code signal => code.isSome || signal.isSome
      | _ => try_wait_loop poll count (i + 1)

/-- `RTShark::try_wait_has_exited`: poll the exit status with a budget of
three attempts. -/
def try_wait_has_exited (poll : Nat → TryWaitRes) : Bool :=
  try_wait_loop poll 3 0

/-- The environment of one `RTShark::read` call: what the decoder
returned, the process handle (as its stream of `try_wait` outcomes, when
still held), and the line a stderr drain would produce (empty string =
end of the stderr stream, i.e. `read_line` returns size `0`). -/
structure ReadEnv where
  parseResult : Except RErr (Option Packet)
  process : Option (Nat → TryWaitRes)
  stderrLine : String

/-- `RTShark::read`: pass decoder results through; on a clean decoder end
of stream, resolve the ambiguity by polling the process exit status, and
when the process is gone surface a non-empty stderr line as an
`InvalidInput` error. -/
def RTShark_read (env : ReadEnv) : Except RErr (Option Packet) :=
  match env.parseResult with
  | Except.error e => Except.error e
  | Except.ok (some p) => Except.ok (some p)
  | Except.ok none =>
      let done := match env.process with
        | some poll => try_wait_has_exited poll
        | none => true
      if done then
        if env.stderrLine.length ≠ 0 then
          Except.error ⟨ErrKind.invalidInput, env.stderrLine⟩
        else Except.ok none
      else Except.ok none

/-- Layers carry indices `k, k+1, ...` in list order. -/
def indexedFrom : Nat → List Layer → Bool
  | _, [] => true
  | k, l :: ls => decide (l.index = k) && indexedFrom (k + 1) ls

/-- Every layer's `index` equals its position in the layer stack. -/
def Packet.indexed (p : Packet) : Bool :=
  indexedFrom 0 p.layers

/-! ### Attribute lookup and metadata construction lemmas -/

theorem attr_ok {tag : Tag} {k v : String} (h : attr? tag k = some v) :
    rtshark_attr_by_name tag k = Except.ok v := by
  simp [rtshark_attr_by_name, h]

theorem attr_err {tag : Tag} {k : String} (h : attr? tag k = none) :
    rtshark_attr_by_name tag k =
      Except.error ⟨ErrKind.invalidInput, "xml lookup error: no key " ++ k⟩ := by
  simp [rtshark_attr_by_name, h]

theorem attr_of_ok {tag : Tag} {k v : String}
    (h : rtshark_attr_by_name tag k = Except.ok v) : attr? tag k = some v := by
  unfold rtshark_attr_by_name at h
  cases ha : attr? tag k with
  | none => rw [ha] at h; cases h
  | some w => rw [ha] at h; cases h; rfl

theorem select_value_show {tag : Tag} {v : String}
    (h : attr? tag "show" = some v) : select_value tag = Except.ok v := by
  simp [select_value, attr_ok h]

theorem select_value_value {tag : Tag} {v : String}
    (h1 : attr? tag "show" = none) (h2 : attr? tag "value" = some v) :
    select_value tag = Except.ok v := by
  simp [select_value, attr_err h1, attr_ok h2]

theorem select_value_showname {tag : Tag} {v : String}
    (h1 : attr? tag "show" = none) (h2 : attr? tag "value" = none)
    (h3 : attr? tag "showname" = some v) : select_value tag = Except.ok v := by
  simp [select_value, attr_err h1, attr_err h2, attr_ok h3]

theorem select_value_err {tag : Tag}
    (h1 : attr? tag "show" = none) (h2 : attr? tag "value" = none)
    (h3 : attr? tag "showname" = none) :
    select_value tag =
      Except.error ⟨ErrKind.invalidInput, "xml lookup error: no key value"⟩ := by
  simp [select_value, attr_err h1, attr_err h2, attr_err h3]

theorem with_pos_value_raw (tag : Tag) (m : Metadata) :
    (with_pos tag m).value = m.value ∧ (with_pos tag m).raw_value = m.raw_value := by
  unfold with_pos
  cases rtshark_attr_by_name_u32 tag "pos" <;> exact ⟨rfl, rfl⟩

theorem with_size_value_raw (tag : Tag) (m : Metadata) :
    (with_size tag m).value = m.value ∧
      (with_size tag m).raw_value = m.raw_value := by
  unfold with_size
  cases rtshark_attr_by_name_u32 tag "size" <;> exact ⟨rfl, rfl⟩

theorem with_display_value_raw (tag : Tag) (m : Metadata) :
    (with_display tag m).value = m.value ∧
      (with_display tag m).raw_value = m.raw_value := by
  unfold with_display
  cases rtshark_attr_by_name tag "showname" <;> exact ⟨rfl, rfl⟩

theorem metadata_new_value (n v : String) (d : Option String)
    (s p : Option Nat) : (Metadata.new n v d s p).value = v := rfl

theorem metadata_new_raw (n v : String) (d : Option String)
    (s p : Option Nat) : (Metadata.new n v d s p).raw_value = none := rfl

theorem with_raw_of_none {tag : Tag} {m : Metadata}
    (h : attr? tag "value" = none) : with_raw tag m = m := by
  unfold with_raw
  rw [attr_err h]

theorem with_raw_of_some {tag : Tag} {m : Metadata} {rv : String}
    (h : attr? tag "value" = some rv) :
    with_raw tag m =
      if rv = m.value then m else { m with raw_value := some rv } := by
  unfold with_raw
  rw [attr_ok h]
  show (if rv ≠ m.value then { m with raw_value := some rv } else m) = _
  by_cases hc : rv = m.value
  · rw [if_neg (not_not_intro hc), if_pos hc]
  · rw [if_pos hc, if_neg hc]

theorem with_raw_value (tag : Tag) (m : Metadata) :
    (with_raw tag m).value = m.value := by
  cases h : attr? tag "value" with
  | none => rw [with_raw_of_none h]
  | some rv =>
      rw [with_raw_of_some h]
      by_cases hc : rv = m.value
      · rw [if_pos hc]
      · rw [if_neg hc]

theorem with_raw_raw (tag : Tag) (m : Metadata) :
    (with_raw tag m).raw_value =
      match attr? tag "value" with
      | some rv => if rv = m.value then m.raw_value else some rv
      | none => m.raw_value := by
  cases h : attr? tag "value" with
  | none => rw [with_raw_of_none h]
  | some rv =>
      rw [with_raw_of_some h]
      show _ = if rv = m.value then m.raw_value else some rv
      by_cases hc : rv = m.value
      · rw [if_pos hc, if_pos hc]
      · rw [if_neg hc, if_neg hc]

theorem finalize_metadata_value (tag : Tag) (n v : String) :
    (finalize_metadata tag n v).value = v := by
  unfold finalize_metadata
  rw [with_raw_value, (with_display_value_raw tag _).1,
    (with_size_value_raw tag _).1, (with_pos_value_raw tag _).1,
    metadata_new_value]

theorem finalize_metadata_raw (tag : Tag) (n v : String) :
    (finalize_metadata tag n v).raw_value =
      match attr? tag "value" with
      | some rv => if rv = v then none else some rv
      | none => none := by
  unfold finalize_metadata
  rw [with_raw_raw]
  simp only [(with_display_value_raw tag _).1, (with_size_value_raw tag _).1,
    (with_pos_value_raw tag _).1, (with_display_value_raw tag _).2,
    (with_size_value_raw tag _).2, (with_pos_value_raw tag _).2,
    metadata_new_value, metadata_new_raw]

theorem build_metadata_ok {tag : Tag} {filters : List String} {n v : String}
    (hname : attr? tag "name" = some n) (hne : n ≠ "")
    (hws : str_starts_with n "_ws." = false) (hf : n ∉ filters)
    (hsel : select_value tag = Except.ok v) :
    rtshark_build_metadata tag filters =
      Except.ok (some (finalize_metadata tag n v)) := by
  simp [rtshark_build_metadata, attr_ok hname, hne, hws, hf, hsel]

theorem build_metadata_err {tag : Tag} {filters : List String} {n : String}
    {e : RErr} (hname : attr? tag "name" = some n) (hne : n ≠ "")
    (hws : str_starts_with n "_ws." = false) (hf : n ∉ filters)
    (hsel : select_value tag = Except.error e) :
    rtshark_build_metadata tag filters = Except.error e := by
  simp [rtshark_build_metadata, attr_ok hname, hne, hws, hf, hsel]

theorem build_metadata_ok_inv {tag : Tag} {filters : List String}
    {m : Metadata} (h : rtshark_build_metadata tag filters =
      Except.ok (some m)) :
    ∃ n v, attr? tag "name" = some n ∧ select_value tag = Except.ok v ∧
      m = finalize_metadata tag n v := by
  unfold rtshark_build_metadata at h
  split at h
  next e heq => exact Except.noConfusion h
  next n heq =>
    split at h
    · exact Option.noConfusion (Except.ok.inj h)
    · split at h
      · exact Option.noConfusion (Except.ok.inj h)
      · split at h
        next e heq2 => exact Except.noConfusion h
        next v heq2 =>
          exact ⟨n, v, attr_of_ok heq, heq2,
            (Option.some.inj (Except.ok.inj h)).symm⟩

/-- C1: for a non-skipped field (name present and non-empty, not a `_ws.`
diagnostic, not filtered), the metadata value follows the three-tier
fallback `show` / `value` / `showname`, and with none of the three the
builder returns an error. -/
theorem value_selection_three_tier (tag : Tag) (filters : List String)
    (n : String) (hname : attr? tag "name" = some n) (hne : n ≠ "")
    (hws : str_starts_with n "_ws." = false) (hf : n ∉ filters) :
    (∀ v, attr? tag "show" = some v →
      ∃ m, rtshark_build_metadata tag filters = Except.ok (some m) ∧
        m.value = v)
    ∧ (attr? tag "show" = none → ∀ v, attr? tag "value" = some v →
      ∃ m, rtshark_build_metadata tag filters = Except.ok (some m) ∧
        m.value = v)
    ∧ (attr? tag "show" = none → attr? tag "value" = none →
      ∀ v, attr? tag "showname" = some v →
      ∃ m, rtshark_build_metadata tag filters = Except.ok (some m) ∧
        m.value = v)
    ∧ (attr? tag "show" = none → attr? tag "value" = none →
      attr? tag "showname" = none →
      ∃ e, rtshark_build_metadata tag filters = Except.error e) := by
  refine ⟨?_, ?_, ?_, ?_⟩
  · intro v hv
    exact ⟨_, build_metadata_ok hname hne hws hf (select_value_show hv),
      finalize_metadata_value tag n v⟩
  · intro h1 v hv
    exact ⟨_, build_metadata_ok hname hne hws hf (select_value_value h1 hv),
      finalize_metadata_value tag n v⟩
  · intro h1 h2 v hv
    exact ⟨_,
      build_metadata_ok hname hne hws hf (select_value_showname h1 h2 hv),
      finalize_metadata_value tag n v⟩
  · intro h1 h2 h3
    exact ⟨_, build_metadata_err hname hne hws hf (select_value_err h1 h2 h3)⟩

/-- Witness for C1: a concrete field tag with only `show` present decodes
to a metadata whose value is the `show` attribute. -/
theorem value_selection_three_tier_witness :
    ∃ m, rtshark_build_metadata ⟨"field", [⟨"name", "num"⟩, ⟨"show", "1"⟩]⟩
      [] = Except.ok (some m) ∧ m.value = "1" :=
  (value_selection_three_tier ⟨"field", [⟨"name", "num"⟩, ⟨"show", "1"⟩]⟩
    [] "num" rfl (by decide) (by decide) (by simp)).1 "1" rfl

/-- C8: the raw value is stored as a distinct component exactly when the
`value` attribute is present and differs from the selected display value;
the `raw_value()` accessor otherwise reads back equal to `value()`; in
particular with only `show` present `value()` is `show` and `raw_value()`
equals `value()`, and with differing `show` and `value` attributes
`value()` is `show` while `raw_value()` is the `value` attribute. -/
theorem raw_value_storage_rule (tag : Tag) (filters : List String)
    (m : Metadata)
    (h : rtshark_build_metadata tag filters = Except.ok (some m)) :
    (m.raw_value = match attr? tag "value" with
      | some rv => if rv = m.value then none else some rv
      | none => none)
    ∧ m.rawValue = (attr? tag "value").getD m.value
    ∧ (∀ v, attr? tag "show" = some v → attr? tag "value" = none →
        m.value = v ∧ m.rawValue = m.value)
    ∧ (∀ v rv, attr? tag "show" = some v → attr? tag "value" = some rv →
        rv ≠ v → m.value = v ∧ m.raw_value = some rv ∧ m.rawValue = rv) := by
  obtain ⟨n, v, hn, hsel, rfl⟩ := build_metadata_ok_inv h
  have hval := finalize_metadata_value tag n v
  have hraw := finalize_metadata_raw tag n v
  refine ⟨?_, ?_, ?_, ?_⟩
  · rw [hraw, hval]
  · unfold Metadata.rawValue
    rw [hraw, hval]
    cases ha : attr? tag "value" with
    | none => rfl
    | some rv =>
        by_cases heq : rv = v
        · simp [heq]
        · simp [heq]
  · intro w hw hnone
    have : Except.ok (α := String) (ε := RErr) w = Except.ok v := by
      rw [← select_value_show hw, hsel]
    cases this
    refine ⟨hval, ?_⟩
    unfold Metadata.rawValue
    rw [hraw, hnone]
    rfl
  · intro w rv hw hrv hne2
    have : Except.ok (α := String) (ε := RErr) w = Except.ok v := by
      rw [← select_value_show hw, hsel]
    cases this
    have hr : (finalize_metadata tag n v).raw_value = some rv := by
      rw [hraw, hrv]
      simp [hne2]
    exact ⟨hval, hr, by unfold Metadata.rawValue; rw [hr]; rfl⟩

/-- Witness for C8: a concrete field with `show` and a differing `value`
attribute stores the raw value distinctly and reads it back. -/
theorem raw_value_storage_rule_witness :
    ∃ m, rtshark_build_metadata
      ⟨"field", [⟨"name", "data"⟩, ⟨"show", "data is aa"⟩, ⟨"value", "0a"⟩]⟩
      [] = Except.ok (some m) ∧
      m.value = "data is aa" ∧ m.raw_value = some "0a" ∧ m.rawValue = "0a" := by
  have h : rtshark_build_metadata
      ⟨"field", [⟨"name", "data"⟩, ⟨"show", "data is aa"⟩, ⟨"value", "0a"⟩]⟩
      [] = Except.ok (some ⟨"data", "data is aa", some "0a", none, none,
        none⟩) := by rfl
  have hc := (raw_value_storage_rule _ _ _ h).2.2.2 "data is aa" "0a" rfl rfl
    (by decide)
  exact ⟨_, h, hc.1, hc.2.1, hc.2.2⟩

/-! ### Decoder step lemmas -/

theorem build_metadata_filtered {tag : Tag} {n : String}
    {filters : List String} (hn : attr? tag "name" = some n)
    (hmem : n ∈ filters) :
    rtshark_build_metadata tag filters = Except.ok none := by
  unfold rtshark_build_metadata
  rw [attr_ok hn]
  show (if (n == "") || str_starts_with n "_ws." then _ else _) = _
  by_cases hskip : ((n == "") || str_starts_with n "_ws.") = true
  · rw [if_pos hskip]
  · rw [if_neg hskip, if_pos (by simpa using hmem)]

theorem geninfo_metadata_ok_layers {tag : Tag} {p p2 : Packet}
    (h : geninfo_metadata tag p = Except.ok p2) : p2.layers = p.layers := by
  unfold geninfo_metadata at h
  split at h
  next => exact Except.noConfusion h
  next name hname =>
    split at h
    · rw [← Except.ok.inj h]
    · split at h
      next => exact Except.noConfusion h
      next v hv =>
        split at h
        next micros hdec => rw [← Except.ok.inj h]
        next hdec => exact Except.noConfusion h

theorem parse_step_empty_geninfo (filters : List String) (s : DState)
    (tag : Tag) (hf : tag.name = "field")
    (hp : s.protoname = some "geninfo") :
    parse_step filters s (XmlEvent.empty tag) =
      (geninfo_metadata tag s.packet).map
        (fun p2 => StepRes.cont ⟨p2, s.protoname⟩) := by
  show handle_empty filters s tag = _
  unfold handle_empty
  rw [hf, hp]
  cases h : geninfo_metadata tag s.packet <;> simp [Except.map, h]

/-- C3 counterexample: in the `geninfo` protocol context, a field tag
with children (`Event::Start`) attaches a Metadata — creating a layer
from the field's name — while the identical self-closing field
(`Event::Empty`) attaches nothing, so the two are not decoded alike in
every protocol context. -/
theorem nested_field_context_counterexample :
    (Tag.name ⟨"field", [⟨"name", "num"⟩, ⟨"show", "1"⟩]⟩ = "field") ∧
    parse_step [] ⟨Packet.new, some "geninfo"⟩
        (XmlEvent.start ⟨"field", [⟨"name", "num"⟩, ⟨"show", "1"⟩]⟩) =
      Except.ok (StepRes.cont ⟨⟨[⟨"num", 0, [⟨"num", "1", none, none, none,
        none⟩]⟩], none⟩, some "geninfo"⟩) ∧
    parse_step [] ⟨Packet.new, some "geninfo"⟩
        (XmlEvent.empty ⟨"field", [⟨"name", "num"⟩, ⟨"show", "1"⟩]⟩) =
      Except.ok (StepRes.cont ⟨Packet.new, some "geninfo"⟩) ∧
    ([⟨"num", 0, [⟨"num", "1", none, none, none, none⟩]⟩] : List Layer) ≠
      Packet.new.layers :=
  ⟨rfl, rfl, rfl, by decide⟩

/-- C3 (amended): when the protocol context is absent, a field tag with
child tags is decoded exactly like an identical self-closing field tag in
the same state — the `Event::Start` field branch always takes the
context-free layer-synthesis path, which coincides with the
`Event::Empty` handling in that case. The equivalence does not extend to
every protocol context: in the general-info bookkeeping context the two
decodings can differ, as a field with child tags can attach a Metadata
where the self-closing field would not. -/
theorem nested_field_no_context_equiv (filters : List String) (s : DState)
    (tag : Tag) (hf : tag.name = "field") (hp : s.protoname = none) :
    parse_step filters s (XmlEvent.start tag) =
      parse_step filters s (XmlEvent.empty tag) := by
  show handle_start filters s tag = handle_empty filters s tag
  unfold handle_start handle_empty
  rw [hf, hp]
  rfl

/-- Witness for the amended C3 at a concrete no-context state. -/
theorem nested_field_no_context_equiv_witness :
    parse_step [] dInit
        (XmlEvent.start ⟨"field", [⟨"name", "udp.port"⟩, ⟨"show", "53"⟩]⟩) =
      parse_step [] dInit
        (XmlEvent.empty ⟨"field", [⟨"name", "udp.port"⟩, ⟨"show", "53"⟩]⟩) :=
  nested_field_no_context_equiv [] dInit
    ⟨"field", [⟨"name", "udp.port"⟩, ⟨"show", "53"⟩]⟩ rfl rfl

/-- C4 counterexample: a fake-wrapper field whose derived owning-protocol
name differs from the last layer is not always dropped — when the field
tag has children (`Event::Start`) its Metadata is attached to a freshly
created layer. -/
theorem fake_wrapper_counterexample :
    proto_of_field_name "tcp.port" ≠ "ip" ∧
    parse_step [] ⟨⟨[⟨"ip", 0, []⟩], none⟩, some "fake-field-wrapper"⟩
        (XmlEvent.start ⟨"field", [⟨"name", "tcp.port"⟩, ⟨"show", "80"⟩]⟩) =
      Except.ok (StepRes.cont ⟨⟨[⟨"ip", 0, []⟩, ⟨"tcp", 1, [⟨"tcp.port",
        "80", none, none, none, none⟩]⟩], none⟩,
        some "fake-field-wrapper"⟩) :=
  ⟨by decide, rfl⟩

/-- C4 (amended): for a self-closing field decoded in the fake-wrapper
context whose Metadata is built, the Metadata is attached to the
most-recently-created layer exactly when that layer's name equals the
field name's derived protocol prefix, and otherwise (or with no layer at
all) the state is left unchanged — the Metadata appears nowhere. -/
theorem fake_wrapper_empty_field (filters : List String) (s : DState)
    (tag : Tag) (m : Metadata) (hf : tag.name = "field")
    (hp : s.protoname = some "fake-field-wrapper")
    (hm : rtshark_build_metadata tag filters = Except.ok (some m)) :
    (∀ l, s.packet.layers.getLast? = some l →
        l.name = proto_of_field_name m.name →
        parse_step filters s (XmlEvent.empty tag) =
          Except.ok (StepRes.cont ⟨s.packet.update_last (fun l2 => l2.add m),
            s.protoname⟩))
    ∧ (∀ l, s.packet.layers.getLast? = some l →
        l.name ≠ proto_of_field_name m.name →
        parse_step filters s (XmlEvent.empty tag) =
          Except.ok (StepRes.cont s))
    ∧ (s.packet.layers.getLast? = none →
        parse_step filters s (XmlEvent.empty tag) =
          Except.ok (StepRes.cont s)) := by
  refine ⟨?_, ?_, ?_⟩
  · intro l hl hname
    show handle_empty filters s tag = _
    unfold handle_empty
    rw [hf, hp]
    simp [hm, hl, hname]
  · intro l hl hname
    show handle_empty filters s tag = _
    unfold handle_empty
    rw [hf, hp]
    simp [hm, hl, hname]
  · intro hl
    show handle_empty filters s tag = _
    unfold handle_empty
    rw [hf, hp]
    simp [hm, hl]

/-- Witness for the amended C4: a matching prefix attaches to the last
layer. -/
theorem fake_wrapper_empty_field_witness :
    parse_step [] ⟨⟨[⟨"tcp", 0, []⟩], none⟩, some "fake-field-wrapper"⟩
        (XmlEvent.empty ⟨"field", [⟨"name", "tcp.len"⟩, ⟨"show", "5"⟩]⟩) =
      Except.ok (StepRes.cont ⟨(⟨[⟨"tcp", 0, []⟩], none⟩ : Packet).update_last
        (fun l2 => l2.add ⟨"tcp.len", "5", none, none, none, none⟩),
        some "fake-field-wrapper"⟩) :=
  (fake_wrapper_empty_field [] ⟨⟨[⟨"tcp", 0, []⟩], none⟩,
      some "fake-field-wrapper"⟩
      ⟨"field", [⟨"name", "tcp.len"⟩, ⟨"show", "5"⟩]⟩
      ⟨"tcp.len", "5", none, none, none, none⟩ rfl rfl rfl).1
    ⟨"tcp", 0, []⟩ rfl rfl

/-- C5 counterexample: a field decoded while the context is `geninfo` can
attach a Metadata to a layer after all — a field tag with children
(`Event::Start`) bypasses the geninfo special case and creates a layer
for its Metadata. -/
theorem geninfo_attach_counterexample :
    parse_step [] ⟨Packet.new, some "geninfo"⟩
        (XmlEvent.start ⟨"field", [⟨"name", "frames"⟩, ⟨"value", "7"⟩]⟩) =
      Except.ok (StepRes.cont ⟨⟨[⟨"frames", 0, [⟨"frames", "7", none, none,
        none, none⟩]⟩], none⟩, some "geninfo"⟩) ∧
    ([⟨"frames", 0, [⟨"frames", "7", none, none, none, none⟩]⟩] : List Layer)
      ≠ ([] : List Layer) :=
  ⟨rfl, by decide⟩

/-- C5 (amended): a self-closing field decoded in the geninfo context
never changes the layer stack; a `timestamp` field with value
`"1652011560.275852000"` sets the packet timestamp to `1652011560275852`
microseconds; and every timestamp parse failure — no dot, non-integer
halves, or an invalid UTC instant — is a hard decode error. -/
theorem geninfo_field_semantics (tag : Tag) (p : Packet)
    (filters : List String) (s : DState)
    (hf : tag.name = "field") (hp : s.protoname = some "geninfo") :
    (parse_step filters s (XmlEvent.empty tag) =
      (geninfo_metadata tag s.packet).map
        (fun p2 => StepRes.cont ⟨p2, s.protoname⟩))
    ∧ (∀ p2, geninfo_metadata tag p = Except.ok p2 → p2.layers = p.layers)
    ∧ (attr? tag "name" = some "timestamp" →
        attr? tag "value" = some "1652011560.275852000" →
        geninfo_metadata tag p =
          Except.ok { p with timestamp_micros := some 1652011560275852 })
    ∧ (∀ v, attr? tag "name" = some "timestamp" →
        attr? tag "value" = some v → decode_timestamp v = none →
        geninfo_metadata tag p = Except.error
          ⟨ErrKind.invalidData, "Error decoding timestamp: " ++ v⟩)
    ∧ (∀ v, split_once v '.' = none → decode_timestamp v = none)
    ∧ (∀ v a b, split_once v '.' = some (a, b) →
        parse_i64 a = none ∨ parse_u32 b = none → decode_timestamp v = none)
    ∧ (∀ v a b secs nsecs, split_once v '.' = some (a, b) →
        parse_i64 a = some secs → parse_u32 b = some nsecs →
        timestamp_opt_is_single secs nsecs = false →
        decode_timestamp v = none) := by
  refine ⟨parse_step_empty_geninfo filters s tag hf hp,
    fun p2 h => geninfo_metadata_ok_layers h, ?_, ?_, ?_, ?_, ?_⟩
  · intro h1 h2
    unfold geninfo_metadata
    rw [attr_ok h1]
    show (if ("timestamp" : String) ≠ "timestamp" then Except.ok p else _)
      = _
    rw [if_neg (fun hcon => hcon rfl), attr_ok h2]
    rfl
  · intro v h1 h2 hdec
    unfold geninfo_metadata
    rw [attr_ok h1]
    show (if ("timestamp" : String) ≠ "timestamp" then Except.ok p else _)
      = _
    rw [if_neg (fun hcon => hcon rfl), attr_ok h2]
    show (match decode_timestamp v with
      | some micros => Except.ok { p with timestamp_micros := some micros }
      | none => Except.error (⟨ErrKind.invalidData,
          "Error decoding timestamp: " ++ v⟩ : RErr)) = _
    rw [hdec]
  · intro v hsplit
    unfold decode_timestamp
    rw [hsplit]
  · intro v a b hsplit hor
    unfold decode_timestamp
    rw [hsplit]
    cases hor with
    | inl hi =>
        show (match parse_i64 a with
          | none => none
          | some secs => _) = (none : Option Int)
        rw [hi]
    | inr hu =>
        cases hi : parse_i64 a with
        | none =>
            show (match parse_i64 a with
              | none => none
              | some secs => _) = (none : Option Int)
            rw [hi]
        | some secs =>
            show (match parse_i64 a with
              | none => none
              | some secs => _) = (none : Option Int)
            rw [hi]
            show (match parse_u32 b with
              | none => none
              | some nsecs => _) = (none : Option Int)
            rw [hu]
  · intro v a b secs nsecs hsplit hi hu hsingle
    unfold decode_timestamp
    rw [hsplit]
    show (match parse_i64 a with
      | none => none
      | some secs => _) = (none : Option Int)
    rw [hi]
    show (match parse_u32 b with
      | none => none
      | some nsecs => _) = (none : Option Int)
    rw [hu]
    show (if timestamp_opt_is_single secs nsecs = true then
      some (timestamp_micros_of secs nsecs) else none) = (none : Option Int)
    rw [hsingle]
    simp

/-- Witness for the amended C5: the documented concrete timestamp at a
concrete geninfo state. -/
theorem geninfo_field_semantics_witness :
    geninfo_metadata
        ⟨"field", [⟨"name", "timestamp"⟩, ⟨"value", "1652011560.275852000"⟩]⟩
        Packet.new =
      Except.ok { Packet.new with timestamp_micros := some 1652011560275852 } :=
  (geninfo_field_semantics
    ⟨"field", [⟨"name", "timestamp"⟩, ⟨"value", "1652011560.275852000"⟩]⟩
    Packet.new [] ⟨Packet.new, some "geninfo"⟩ rfl rfl).2.2.1 rfl rfl

theorem handle_start_build_none (filters : List String) (s : DState)
    (tag : Tag) (hf : tag.name = "field")
    (hb : rtshark_build_metadata tag filters = Except.ok none) :
    parse_step filters s (XmlEvent.start tag) =
      Except.ok (StepRes.cont s) := by
  show handle_start filters s tag = _
  unfold handle_start
  rw [hf]
  simp [hb]

theorem handle_empty_build_none (filters : List String) (s : DState)
    (tag : Tag) (hf : tag.name = "field")
    (hb : rtshark_build_metadata tag filters = Except.ok none)
    (hng : s.protoname ≠ some "geninfo") :
    parse_step filters s (XmlEvent.empty tag) =
      Except.ok (StepRes.cont s) := by
  show handle_empty filters s tag = _
  unfold handle_empty
  rw [hf]
  cases hpn : s.protoname with
  | none => simp [hb]
  | some name =>
      have hne : name ≠ "geninfo" := fun hcon => hng (by rw [hpn, hcon])
      simp [hb, hne]

/-- C6: a field whose name is in the filter set never contributes a
Metadata and never causes a layer to be created — the decoder state is
unchanged (outside the geninfo context, entirely; in the geninfo
context, the layer stack and protocol context are unchanged). -/
theorem filtered_field_suppressed (filters : List String) (s : DState)
    (tag : Tag) (n : String) (hf : tag.name = "field")
    (hn : attr? tag "name" = some n) (hmem : n ∈ filters) :
    parse_step filters s (XmlEvent.start tag) = Except.ok (StepRes.cont s)
    ∧ (s.protoname ≠ some "geninfo" →
        parse_step filters s (XmlEvent.empty tag) =
          Except.ok (StepRes.cont s))
    ∧ (∀ s2, parse_step filters s (XmlEvent.empty tag) =
        Except.ok (StepRes.cont s2) →
        s2.packet.layers = s.packet.layers ∧ s2.protoname = s.protoname) := by
  have hb := build_metadata_filtered hn hmem
  refine ⟨handle_start_build_none filters s tag hf hb, ?_, ?_⟩
  · intro hng
    exact handle_empty_build_none filters s tag hf hb hng
  · intro s2 hstep
    by_cases hg : s.protoname = some "geninfo"
    · rw [parse_step_empty_geninfo filters s tag hf hg] at hstep
      cases hge : geninfo_metadata tag s.packet with
      | error e => rw [hge] at hstep; exact Except.noConfusion hstep
      | ok p2 =>
          rw [hge] at hstep
          have h2 : StepRes.cont (⟨p2, s.protoname⟩ : DState) =
              StepRes.cont s2 := Except.ok.inj hstep
          have h3 : (⟨p2, s.protoname⟩ : DState) = s2 := by
            cases h2; rfl
          rw [← h3]
          exact ⟨geninfo_metadata_ok_layers hge, rfl⟩
    · rw [handle_empty_build_none filters s tag hf hb hg] at hstep
      have h2 : StepRes.cont s = StepRes.cont s2 := Except.ok.inj hstep
      have h3 : s = s2 := by cases h2; rfl
      rw [← h3]
      exact ⟨rfl, rfl⟩

/-- Witness for C6: a concrete filtered field leaves a concrete state
unchanged. -/
theorem filtered_field_suppressed_witness :
    parse_step ["ip.src"] ⟨⟨[⟨"ip", 0, []⟩], none⟩, some "ip"⟩
        (XmlEvent.start
          ⟨"field", [⟨"name", "ip.src"⟩, ⟨"show", "1.1.1.1"⟩]⟩) =
      Except.ok (StepRes.cont ⟨⟨[⟨"ip", 0, []⟩], none⟩, some "ip"⟩) :=
  (filtered_field_suppressed ["ip.src"] ⟨⟨[⟨"ip", 0, []⟩], none⟩, some "ip"⟩
    ⟨"field", [⟨"name", "ip.src"⟩, ⟨"show", "1.1.1.1"⟩]⟩ "ip.src" rfl rfl
    (by simp)).1

/-! ### Layer-index invariant and layer lookup -/

theorem indexedFrom_mem_le :
    ∀ (ls : List Layer) (k : Nat), indexedFrom k ls = true →
      ∀ l ∈ ls, k ≤ l.index := by
  intro ls
  induction ls with
  | nil =>
      intro k _ l hl
      cases hl
  | cons x ls ih =>
      intro k h l hl
      unfold indexedFrom at h
      rw [Bool.and_eq_true] at h
      have hx : x.index = k := of_decide_eq_true h.1
      cases hl with
      | head => omega
      | tail _ hmem =>
          have := ih (k + 1) h.2 l hmem
          omega

theorem indexedFrom_append (n : String) :
    ∀ (ls : List Layer) (k : Nat), indexedFrom k ls = true →
      indexedFrom k (ls ++ [Layer.new n (k + ls.length)]) = true := by
  intro ls
  induction ls with
  | nil =>
      intro k h
      simp [indexedFrom, Layer.new]
  | cons x ls ih =>
      intro k h
      unfold indexedFrom at h
      rw [Bool.and_eq_true] at h
      show indexedFrom k (x :: (ls ++ [Layer.new n (k + (x :: ls).length)]))
        = true
      unfold indexedFrom
      rw [Bool.and_eq_true]
      refine ⟨h.1, ?_⟩
      have harith : k + (x :: ls).length = (k + 1) + ls.length := by
        simp [List.length_cons]
        omega
      rw [harith]
      exact ih (k + 1) h.2

theorem push_indexed {p : Packet} (n : String) (h : p.indexed = true) :
    (p.push n).indexed = true := by
  unfold Packet.indexed at h ⊢
  show indexedFrom 0 (p.layers ++ [Layer.new n p.layers.length]) = true
  have := indexedFrom_append n p.layers 0 h
  simpa using this

theorem push_if_not_exist_indexed {p : Packet} (n : String)
    (h : p.indexed = true) : (p.push_if_not_exist n).indexed = true := by
  unfold Packet.push_if_not_exist
  split
  next l hl =>
    split
    · exact h
    · exact push_indexed n h
  next => exact push_indexed n h

theorem indexedFrom_updateLastAux (f : Layer → Layer)
    (hf : ∀ l, (f l).index = l.index) :
    ∀ (ls : List Layer) (k : Nat),
      indexedFrom k (updateLastAux f ls) = indexedFrom k ls := by
  intro ls
  induction ls with
  | nil => intro k; rfl
  | cons x ls ih =>
      intro k
      cases ls with
      | nil =>
          show indexedFrom k [f x] = indexedFrom k [x]
          simp [indexedFrom, hf]
      | cons y ys =>
          show indexedFrom k (x :: updateLastAux f (y :: ys)) =
            indexedFrom k (x :: (y :: ys))
          unfold indexedFrom
          rw [ih (k + 1)]

theorem update_last_indexed {p : Packet} {f : Layer → Layer}
    (hf : ∀ l, (f l).index = l.index) (h : p.indexed = true) :
    (p.update_last f).indexed = true := by
  unfold Packet.indexed Packet.update_last at *
  show indexedFrom 0 (updateLastAux f p.layers) = true
  rw [indexedFrom_updateLastAux f hf]
  exact h

theorem indexed_of_layers_eq {p p2 : Packet} (h : p2.layers = p.layers)
    (hp : p.indexed = true) : p2.indexed = true := by
  unfold Packet.indexed
  rw [h]
  exact hp

theorem _add_metadata_indexed {p p2 : Packet} {m : Metadata}
    (h : p.indexed = true) (hadd : _add_metadata p m = Except.ok p2) :
    p2.indexed = true := by
  have hadd2 : (match
      (p.push_if_not_exist (proto_of_field_name m.name)).layers.getLast? with
    | some _ => Except.ok
        ((p.push_if_not_exist (proto_of_field_name m.name)).update_last
          (fun l => l.add m))
    | none => Except.error (⟨ErrKind.invalidData,
        "Cannot find protocol name to push a metadata"⟩ : RErr)) =
      Except.ok p2 := hadd
  split at hadd2
  next l hl =>
      rw [← Except.ok.inj hadd2]
      exact update_last_indexed (fun l2 => rfl)
        (push_if_not_exist_indexed _ h)
  next => exact Except.noConfusion hadd2

theorem indexedFrom_find_lowest (nm : String) :
    ∀ (ls : List Layer) (k : Nat) (l : Layer),
      indexedFrom k ls = true →
      ls.find? (fun x => x.name == nm) = some l →
      l.name = nm ∧ ∀ l2 ∈ ls, l2.name = nm → l.index ≤ l2.index := by
  intro ls
  induction ls with
  | nil =>
      intro k l _ hfind
      exact Option.noConfusion hfind
  | cons x ls ih =>
      intro k l hidx hfind
      unfold indexedFrom at hidx
      rw [Bool.and_eq_true] at hidx
      have hxk : x.index = k := of_decide_eq_true hidx.1
      have hfind2 : (match (x.name == nm) with
        | true => some x
        | false => List.find? (fun y => y.name == nm) ls) = some l := hfind
      cases hx : (x.name == nm) with
      | true =>
          rw [hx] at hfind2
          have hl : x = l := Option.some.inj hfind2
          have hln : l.index = x.index := by rw [← hl]
          refine ⟨by rw [← hl]; exact eq_of_beq hx, ?_⟩
          intro l2 hl2 hl2n
          cases hl2 with
          | head => omega
          | tail _ hmem =>
              have := indexedFrom_mem_le ls (k + 1) hidx.2 l2 hmem
              omega
      | false =>
          rw [hx] at hfind2
          obtain ⟨hname, hmin⟩ := ih (k + 1) l hidx.2 hfind2
          refine ⟨hname, ?_⟩
          intro l2 hl2 hl2n
          cases hl2 with
          | head => exact absurd (beq_iff_eq.mpr hl2n) (by simp [hx])
          | tail _ hmem => exact hmin l2 hmem hl2n

theorem handle_start_indexed {filters : List String} {s : DState}
    {tag : Tag} {s2 : DState} (h : s.packet.indexed = true)
    (hs : handle_start filters s tag = Except.ok (StepRes.cont s2)) :
    s2.packet.indexed = true := by
  unfold handle_start at hs
  split at hs
  · split at hs
    next => exact Except.noConfusion hs
    next proto hattr =>
        have h4 := Except.ok.inj hs
        injection h4 with h5
        rw [← h5]
        show (if ignored_protocols proto = true then s.packet
          else s.packet.push proto).indexed = true
        split
        · exact h
        · exact push_indexed proto h
  · split at hs
    · split at hs
      next => exact Except.noConfusion hs
      next hb =>
          have h4 := Except.ok.inj hs
          injection h4 with h5
          rw [← h5]
          exact h
      next m hb =>
          split at hs
          next => exact Except.noConfusion hs
          next p hadd =>
              have h4 := Except.ok.inj hs
              injection h4 with h5
              rw [← h5]
              exact _add_metadata_indexed h hadd
    · have h4 := Except.ok.inj hs
      injection h4 with h5
      rw [← h5]
      exact h

theorem handle_empty_indexed {filters : List String} {s : DState}
    {tag : Tag} {s2 : DState} (h : s.packet.indexed = true)
    (hs : handle_empty filters s tag = Except.ok (StepRes.cont s2)) :
    s2.packet.indexed = true := by
  unfold handle_empty at hs
  split at hs
  · split at hs
    next name hpn =>
        split at hs
        · -- geninfo
          split at hs
          next => exact Except.noConfusion hs
          next p hg =>
              have h4 := Except.ok.inj hs
              injection h4 with h5
              rw [← h5]
              exact indexed_of_layers_eq (geninfo_metadata_ok_layers hg) h
        · split at hs
          next => exact Except.noConfusion hs
          next hb =>
              have h4 := Except.ok.inj hs
              injection h4 with h5
              rw [← h5]
              exact h
          next m hb =>
              split at hs
              · -- fake wrapper
                split at hs
                next l hl =>
                    split at hs
                    · have h4 := Except.ok.inj hs
                      injection h4 with h5
                      rw [← h5]
                      exact update_last_indexed (fun l2 => rfl) h
                    · have h4 := Except.ok.inj hs
                      injection h4 with h5
                      rw [← h5]
                      exact h
                next hl =>
                    have h4 := Except.ok.inj hs
                    injection h4 with h5
                    rw [← h5]
                    exact h
              · -- real protocol context
                split at hs
                next l hl =>
                    have h4 := Except.ok.inj hs
                    injection h4 with h5
                    rw [← h5]
                    exact update_last_indexed (fun l2 => rfl) h
                next hl => exact Except.noConfusion hs
    next hpn =>
        split at hs
        next => exact Except.noConfusion hs
        next hb =>
            have h4 := Except.ok.inj hs
            injection h4 with h5
            rw [← h5]
            exact h
        next m hb =>
            split at hs
            next => exact Except.noConfusion hs
            next p hadd =>
                have h4 := Except.ok.inj hs
                injection h4 with h5
                rw [← h5]
                exact _add_metadata_indexed h hadd
  · have h4 := Except.ok.inj hs
    injection h4 with h5
    rw [← h5]
    exact h

theorem handle_start_no_emit {filters : List String} {s : DState}
    {tag : Tag} {p : Packet}
    (hs : handle_start filters s tag = Except.ok (StepRes.emit p)) :
    False := by
  unfold handle_start at hs
  split at hs
  · split at hs
    next => exact Except.noConfusion hs
    next proto hattr => exact StepRes.noConfusion (Except.ok.inj hs)
  · split at hs
    · split at hs
      next => exact Except.noConfusion hs
      next hb => exact StepRes.noConfusion (Except.ok.inj hs)
      next m hb =>
          split at hs
          next => exact Except.noConfusion hs
          next q hadd => exact StepRes.noConfusion (Except.ok.inj hs)
    · exact StepRes.noConfusion (Except.ok.inj hs)

theorem handle_empty_no_emit {filters : List String} {s : DState}
    {tag : Tag} {p : Packet}
    (hs : handle_empty filters s tag = Except.ok (StepRes.emit p)) :
    False := by
  unfold handle_empty at hs
  split at hs
  · split at hs
    next name hpn =>
        split at hs
        · split at hs
          next => exact Except.noConfusion hs
          next q hg => exact StepRes.noConfusion (Except.ok.inj hs)
        · split at hs
          next => exact Except.noConfusion hs
          next hb => exact StepRes.noConfusion (Except.ok.inj hs)
          next m hb =>
              split at hs
              · split at hs
                next l hl =>
                    split at hs
                    · exact StepRes.noConfusion (Except.ok.inj hs)
                    · exact StepRes.noConfusion (Except.ok.inj hs)
                next hl => exact StepRes.noConfusion (Except.ok.inj hs)
              · split at hs
                next l hl => exact StepRes.noConfusion (Except.ok.inj hs)
                next hl => exact Except.noConfusion hs
    next hpn =>
        split at hs
        next => exact Except.noConfusion hs
        next hb => exact StepRes.noConfusion (Except.ok.inj hs)
        next m hb =>
            split at hs
            next => exact Except.noConfusion hs
            next q hadd => exact StepRes.noConfusion (Except.ok.inj hs)
  · exact StepRes.noConfusion (Except.ok.inj hs)

theorem handle_close_cont {s : DState} {name : String} {s2 : DState}
    (h : handle_close s name = Except.ok (StepRes.cont s2)) :
    s2.packet = s.packet := by
  unfold handle_close at h
  split at h
  · exact StepRes.noConfusion (Except.ok.inj h)
  · split at h
    · have h4 := Except.ok.inj h
      injection h4 with h5
      rw [← h5]
    · have h4 := Except.ok.inj h
      injection h4 with h5
      rw [← h5]

theorem handle_close_emit {s : DState} {name : String} {p : Packet}
    (h : handle_close s name = Except.ok (StepRes.emit p)) :
    p = s.packet := by
  unfold handle_close at h
  split at h
  · exact (StepRes.emit.inj (Except.ok.inj h)).symm
  · split at h
    · exact StepRes.noConfusion (Except.ok.inj h)
    · exact StepRes.noConfusion (Except.ok.inj h)

theorem parse_step_indexed (filters : List String) (s : DState)
    (ev : XmlEvent) (h : s.packet.indexed = true) :
    (∀ s2, parse_step filters s ev = Except.ok (StepRes.cont s2) →
      s2.packet.indexed = true)
    ∧ (∀ p, parse_step filters s ev = Except.ok (StepRes.emit p) →
      p.indexed = true) := by
  cases ev with
  | start tag =>
      exact ⟨fun s2 hs => handle_start_indexed h hs,
        fun p hp => absurd hp (fun hp2 => handle_start_no_emit hp2)⟩
  | empty tag =>
      exact ⟨fun s2 hs => handle_empty_indexed h hs,
        fun p hp => absurd hp (fun hp2 => handle_empty_no_emit hp2)⟩
  | close name =>
      refine ⟨fun s2 hs => ?_, fun p hp => ?_⟩
      · exact indexed_of_layers_eq (by rw [handle_close_cont hs]) h
      · exact indexed_of_layers_eq (by rw [handle_close_emit hp]) h
  | eof =>
      refine ⟨fun s2 hs => ?_, fun p hp => ?_⟩
      · exact StepRes.noConfusion (Except.ok.inj hs)
      · exact StepRes.noConfusion (Except.ok.inj hp)
  | text =>
      refine ⟨fun s2 hs => ?_, fun p hp => ?_⟩
      · have h4 := Except.ok.inj hs
        injection h4 with h5
        rw [← h5]
        exact h
      · exact StepRes.noConfusion (Except.ok.inj hp)
  | readErr msg =>
      refine ⟨fun s2 hs => Except.noConfusion hs,
        fun p hp => Except.noConfusion hp⟩

theorem parse_xml_indexed (filters : List String) :
    ∀ (evs : List XmlEvent) (s : DState) (p : Packet)
      (rest : List XmlEvent), s.packet.indexed = true →
      parse_xml filters s evs = Except.ok (some p, rest) →
      p.indexed = true := by
  intro evs
  induction evs with
  | nil =>
      intro s p rest _ hr
      have hpair := Except.ok.inj hr
      exact Option.noConfusion (congrArg Prod.fst hpair)
  | cons ev evs ih =>
      intro s p rest h hr
      have hr2 : (match parse_step filters s ev with
        | Except.error e => Except.error e
        | Except.ok (StepRes.cont s3) => parse_xml filters s3 evs
        | Except.ok (StepRes.emit q) => Except.ok (some q, evs)
        | Except.ok StepRes.stop => Except.ok (none, evs)) =
          Except.ok (some p, rest) := hr
      cases hstep : parse_step filters s ev with
      | error e =>
          rw [hstep] at hr2
          exact Except.noConfusion hr2
      | ok r =>
          rw [hstep] at hr2
          cases r with
          | cont s3 =>
              exact ih s3 p rest
                ((parse_step_indexed filters s ev h).1 s3 hstep) hr2
          | emit q =>
              have hpair := Except.ok.inj hr2
              have hq : some q = some p := congrArg Prod.fst hpair
              rw [← Option.some.inj hq]
              exact (parse_step_indexed filters s ev h).2 q hstep
          | stop =>
              have hpair := Except.ok.inj hr2
              exact Option.noConfusion (congrArg Prod.fst hpair)

theorem handle_start_proto (filters : List String) (s : DState) (tag : Tag)
    (n : String) (hp : tag.name = "proto") (hn : attr? tag "name" = some n)
    (hig : ignored_protocols n = false) :
    parse_step filters s (XmlEvent.start tag) =
      Except.ok (StepRes.cont ⟨s.packet.push n, some n⟩) := by
  show handle_start filters s tag = _
  unfold handle_start
  rw [hp, attr_ok hn]
  simp [hig]

/-- C7: pushing the same protocol name twice creates two distinct layers
at consecutive indices; every decoded packet satisfies the
index-equals-position invariant; and `layer_name` returns the layer with
the lowest index among those sharing the searched name. -/
theorem duplicate_proto_distinct_layers (filters : List String)
    (s : DState) (tag : Tag) (n : String) (hp : tag.name = "proto")
    (hn : attr? tag "name" = some n)
    (hig : ignored_protocols n = false) :
    (∃ s1 s2, parse_step filters s (XmlEvent.start tag) =
        Except.ok (StepRes.cont s1) ∧
      parse_step filters s1 (XmlEvent.start tag) =
        Except.ok (StepRes.cont s2) ∧
      s2.packet.layers = s.packet.layers ++
        [Layer.new n s.packet.layers.length,
          Layer.new n (s.packet.layers.length + 1)])
    ∧ (∀ evs p rest, parse_xml filters dInit evs =
        Except.ok (some p, rest) → p.indexed = true)
    ∧ (∀ (p : Packet) (nm : String) (l : Layer), p.indexed = true →
        p.layer_name nm = some l →
        l.name = nm ∧ ∀ l2 ∈ p.layers, l2.name = nm →
          l.index ≤ l2.index) := by
  refine ⟨?_, ?_, ?_⟩
  · refine ⟨⟨s.packet.push n, some n⟩, ⟨(s.packet.push n).push n, some n⟩,
      handle_start_proto filters s tag n hp hn hig,
      handle_start_proto filters _ tag n hp hn hig, ?_⟩
    show (s.packet.layers ++ [Layer.new n s.packet.layers.length]) ++
      [Layer.new n (s.packet.layers ++
        [Layer.new n s.packet.layers.length]).length] = _
    simp [List.append_assoc]
  · intro evs p rest hr
    exact parse_xml_indexed filters evs dInit p rest rfl hr
  · intro p nm l hidx hfind
    exact indexedFrom_find_lowest nm p.layers 0 l hidx hfind

/-- Witness for C7: two `ip` proto tags from the fresh state give layers
`ip@0` and `ip@1`. -/
theorem duplicate_proto_distinct_layers_witness :
    ∃ s1 s2, parse_step [] dInit
        (XmlEvent.start ⟨"proto", [⟨"name", "ip"⟩]⟩) =
      Except.ok (StepRes.cont s1) ∧
      parse_step [] s1 (XmlEvent.start ⟨"proto", [⟨"name", "ip"⟩]⟩) =
        Except.ok (StepRes.cont s2) ∧
      s2.packet.layers = [Layer.new "ip" 0, Layer.new "ip" 1] := by
  obtain ⟨s1, s2, h1, h2, h3⟩ := (duplicate_proto_distinct_layers [] dInit
    ⟨"proto", [⟨"name", "ip"⟩]⟩ "ip" rfl rfl rfl).1
  exact ⟨s1, s2, h1, h2, by simpa using h3⟩

/-! ### Stream composition and end-of-stream handling -/

theorem runCont_append (filters : List String) :
    ∀ (body : List XmlEvent) (s s2 : DState) (rest : List XmlEvent),
      runCont filters s body = some s2 →
      parse_xml filters s (body ++ rest) = parse_xml filters s2 rest := by
  intro body
  induction body with
  | nil =>
      intro s s2 rest h
      have h2 : s = s2 := Option.some.inj h
      rw [← h2]
      rfl
  | cons ev body ih =>
      intro s s2 rest h
      have h2 : (match parse_step filters s ev with
        | Except.ok (StepRes.cont s3) => runCont filters s3 body
        | _ => none) = some s2 := h
      cases hstep : parse_step filters s ev with
      | error e =>
          rw [hstep] at h2
          exact Option.noConfusion h2
      | ok r =>
          rw [hstep] at h2
          cases r with
          | cont s3 =>
              have h3 : parse_xml filters s ((ev :: body) ++ rest) =
                  parse_xml filters s3 (body ++ rest) := by
                show (match parse_step filters s ev with
                  | Except.error e => Except.error e
                  | Except.ok (StepRes.cont s4) =>
                      parse_xml filters s4 (body ++ rest)
                  | Except.ok (StepRes.emit q) =>
                      Except.ok (some q, body ++ rest)
                  | Except.ok StepRes.stop =>
                      Except.ok (none, body ++ rest)) = _
                rw [hstep]
              exact h3.trans (ih s3 s2 rest h2)
          | emit q => exact Option.noConfusion h2
          | stop => exact Option.noConfusion h2

theorem parse_xml_close_packet (filters : List String) (s : DState)
    (rest : List XmlEvent) :
    parse_xml filters s (XmlEvent.close "packet" :: rest) =
      Except.ok (some s.packet, rest) := by
  have h : parse_step filters s (XmlEvent.close "packet") =
      Except.ok (StepRes.emit s.packet) := rfl
  show (match parse_step filters s (XmlEvent.close "packet") with
    | Except.error e => Except.error e
    | Except.ok (StepRes.cont s4) => parse_xml filters s4 rest
    | Except.ok (StepRes.emit q) => Except.ok (some q, rest)
    | Except.ok StepRes.stop => Except.ok (none, rest)) = _
  rw [h]

/-- C9: a stream of three complete well-formed packet tags followed by
end of input decodes, over successive invocations, to exactly the three
packets in stream order and then a clean `none`. -/
theorem three_packets_then_eof (filters : List String)
    (t1 t2 t3 : List XmlEvent) (p1 p2 p3 : Packet)
    (h1 : CompletePacketTag filters t1 p1)
    (h2 : CompletePacketTag filters t2 p2)
    (h3 : CompletePacketTag filters t3 p3) :
    parse_xml filters dInit (t1 ++ (t2 ++ (t3 ++ [XmlEvent.eof]))) =
      Except.ok (some p1, t2 ++ (t3 ++ [XmlEvent.eof]))
    ∧ parse_xml filters dInit (t2 ++ (t3 ++ [XmlEvent.eof])) =
      Except.ok (some p2, t3 ++ [XmlEvent.eof])
    ∧ parse_xml filters dInit (t3 ++ [XmlEvent.eof]) =
      Except.ok (some p3, [XmlEvent.eof])
    ∧ parse_xml filters dInit [XmlEvent.eof] = Except.ok (none, []) := by
  have key : ∀ t p rest, CompletePacketTag filters t p →
      parse_xml filters dInit (t ++ rest) = Except.ok (some p, rest) := by
    intro t p rest ht
    obtain ⟨body, sfin, hte, hrun, hpk⟩ := ht
    rw [hte, List.append_assoc]
    rw [runCont_append filters body dInit sfin _ hrun]
    show parse_xml filters sfin (XmlEvent.close "packet" :: rest) = _
    rw [parse_xml_close_packet, hpk]
  exact ⟨key t1 p1 _ h1, key t2 p2 _ h2, key t3 p3 _ h3, rfl⟩

/-- Witness for C9 on a concrete three-packet stream. -/
theorem three_packets_then_eof_witness :
    parse_xml [] dInit
        ([XmlEvent.start ⟨"proto", [⟨"name", "a"⟩]⟩, XmlEvent.close "proto",
          XmlEvent.close "packet"] ++
          ([XmlEvent.close "packet"] ++
            ([XmlEvent.close "packet"] ++ [XmlEvent.eof]))) =
      Except.ok (some ⟨[Layer.new "a" 0], none⟩,
        [XmlEvent.close "packet"] ++
          ([XmlEvent.close "packet"] ++ [XmlEvent.eof])) :=
  (three_packets_then_eof []
    [XmlEvent.start ⟨"proto", [⟨"name", "a"⟩]⟩, XmlEvent.close "proto",
      XmlEvent.close "packet"]
    [XmlEvent.close "packet"] [XmlEvent.close "packet"]
    ⟨[Layer.new "a" 0], none⟩ Packet.new Packet.new
    ⟨[XmlEvent.start ⟨"proto", [⟨"name", "a"⟩]⟩, XmlEvent.close "proto"],
      ⟨⟨[Layer.new "a" 0], none⟩, none⟩, rfl, rfl, rfl⟩
    ⟨[], dInit, rfl, rfl, rfl⟩
    ⟨[], dInit, rfl, rfl, rfl⟩).1

/-- C10: reaching end of input while a packet is in progress (its open
tag consumed, all events stepping normally, no packet close seen) makes
the decode invocation return a clean `none` with nothing left over — the
partially accumulated packet is silently discarded, not returned and not
an error. -/
theorem eof_discards_partial_packet (filters : List String)
    (body : List XmlEvent) (s : DState) (ptag : Tag)
    (hopen : XmlEvent.start ptag ∈ body) (hname : ptag.name = "packet")
    (hrun : runCont filters dInit body = some s) :
    parse_xml filters dInit (body ++ [XmlEvent.eof]) =
      Except.ok (none, []) := by
  rw [runCont_append filters body dInit s _ hrun]
  rfl

/-- Witness for C10: a packet-open tag and one proto layer, then EOF. -/
theorem eof_discards_partial_packet_witness :
    parse_xml [] dInit
        ([XmlEvent.start ⟨"packet", []⟩,
          XmlEvent.start ⟨"proto", [⟨"name", "ip"⟩]⟩] ++ [XmlEvent.eof]) =
      Except.ok (none, []) :=
  eof_discards_partial_packet []
    [XmlEvent.start ⟨"packet", []⟩,
      XmlEvent.start ⟨"proto", [⟨"name", "ip"⟩]⟩]
    ⟨⟨[Layer.new "ip" 0], none⟩, some "ip"⟩ ⟨"packet", []⟩
    (by simp) rfl rfl

theorem string_length_ne_zero {s : String} (h : s ≠ "") : s.length ≠ 0 := by
  intro h0
  apply h
  have h1 : s.data = [] := List.length_eq_zero.mp h0
  cases s with
  | mk data =>
      rw [show data = [] from h1]

/-- C2: when the decoder reports a clean end of the tag stream, `read`
resolves the ambiguity by polling the process exit status (inspecting at
most the first three poll outcomes); if the process has exited, a
non-empty drained stderr line becomes an `InvalidInput` error carrying
that text while an empty one yields `Ok(None)`; if the process has not
exited within the retry budget, `read` returns `Ok(None)`. -/
theorem read_ambiguous_eof_resolution (env : ReadEnv)
    (poll : Nat → TryWaitRes)
    (hparse : env.parseResult = Except.ok none)
    (hproc : env.process = some poll) :
    (try_wait_has_exited poll = true → env.stderrLine ≠ "" →
      RTShark_read env =
        Except.error ⟨ErrKind.invalidInput, env.stderrLine⟩)
    ∧ (try_wait_has_exited poll = true → env.stderrLine = "" →
      RTShark_read env = Except.ok none)
    ∧ (try_wait_has_exited poll = false →
      RTShark_read env = Except.ok none)
    ∧ (∀ poll2 : Nat → TryWaitRes, poll 0 = poll2 0 → poll 1 = poll2 1 →
      poll 2 = poll2 2 →
      try_wait_has_exited poll = try_wait_has_exited poll2) := by
  have hread0 : RTShark_read env =
      (if (match env.process with
        | some q => try_wait_has_exited q
        | none => true) = true then
        (if env.stderrLine.length ≠ 0 then
          Except.error ⟨ErrKind.invalidInput, env.stderrLine⟩
        else Except.ok none)
      else Except.ok none) := by
    unfold RTShark_read
    rw [hparse]
  rw [hproc] at hread0
  have hread : RTShark_read env =
      (if try_wait_has_exited poll = true then
        (if env.stderrLine.length ≠ 0 then
          Except.error ⟨ErrKind.invalidInput, env.stderrLine⟩
        else Except.ok none)
      else Except.ok none) := hread0
  have hexpand : ∀ q : Nat → TryWaitRes, try_wait_has_exited q =
      (match q 0 with
      | TryWaitRes.exited c sg => c.isSome || sg.isSome
      | _ => match q 1 with
        | TryWaitRes.exited c sg => c.isSome || sg.isSome
        | _ => match q 2 with
          | TryWaitRes.exited c sg => c.isSome || sg.isSome
          | _ => false) := fun q => rfl
  refine ⟨?_, ?_, ?_, ?_⟩
  · intro hex hline
    rw [hread, hex]
    rw [if_pos rfl, if_pos (string_length_ne_zero hline)]
  · intro hex hline
    rw [hread, hex, if_pos rfl, hline]
    rw [if_neg (by simp)]
  · intro hex
    rw [hread, hex]
    rw [if_neg (by simp)]
  · intro poll2 h0 h1 h2
    rw [hexpand poll, hexpand poll2, h0, h1, h2]

/-- Witness for C2: an exited process with a pending stderr line turns a
clean decoder end into an input error carrying the line. -/
theorem read_ambiguous_eof_resolution_witness :
    RTShark_read ⟨Except.ok none,
      some (fun _ => TryWaitRes.exited (some 1) none),
      "tshark: invalid filter"⟩ =
      Except.error ⟨ErrKind.invalidInput, "tshark: invalid filter"⟩ :=
  (read_ambiguous_eof_resolution
    ⟨Except.ok none, some (fun _ => TryWaitRes.exited (some 1) none),
      "tshark: invalid filter"⟩
    (fun _ => TryWaitRes.exited (some 1) none) rfl rfl).1 rfl (by decide)

end RTSharkSpec
